import Mathlib

/-!
Shallow embedding of the Warband game server (`src/apps/server/src/index.ts`).

Conventions of the embedding:
* JavaScript numbers are idealized as exact arithmetic: positions use `ℝ`
  (the movement validator takes a square root), gold and unit counts use `ℤ`,
  and the battle resolver's random multipliers and loss fractions use `ℚ`.
* The mutable `state.players` map is an association list with `Map.set`
  semantics (replace in place, else append).
* Handlers are pure functions from the relevant state to the new state plus
  the list of outbound messages they emit; the WebSocket handle `ws` is
  modelled as `Option ℕ` (an opaque connection id, `none` once redacted).
* `Math.random()` draws are passed in as explicit parameters.
-/

namespace Warband

/-- The three unit types of `UNIT_STATS`. -/
inductive UnitType where
  | infantry
  | archer
  | cavalry
deriving DecidableEq, Repr

/-- A unit stack: `{type, count, level}` (interface `Unit`). -/
structure Unit where
  type : UnitType
  count : ℤ
  level : ℤ
deriving DecidableEq, Repr

/-- A continuous 2D coordinate (interface `Position`). -/
structure Position where
  x : ℝ
  y : ℝ

/-- A connected player (interface `Player`); `ws` is the connection handle. -/
structure Player where
  id : String
  name : String
  faction : String
  position : Position
  gold : ℤ
  army : List Unit
  color : String
  ws : Option ℕ

/-- A territory (interface `Territory`); never mutated after generation. -/
structure Territory where
  id : String
  name : String
  position : Position
  owner : Option String
  kind : String
  income : ℤ

/-- The shared game state (interface `GameState`, battles omitted: never used). -/
structure GameState where
  players : List (String × Player)
  territories : List Territory
  tick : ℤ

/-- `const MAP_SIZE = 100`. -/
def MAP_SIZE : ℝ := 100

/-- `const FACTIONS = [...]`. -/
def FACTIONS : List String :=
  ["Swadia", "Vaegirs", "Khergit", "Nord", "Rhodok", "Sarranid"]

/-- `const FACTION_COLORS = [...]`. -/
def FACTION_COLORS : List String :=
  ["#3b82f6", "#ef4444", "#22c55e", "#f59e0b", "#8b5cf6", "#ec4899"]

/-- Per-type base stats of `UNIT_STATS`. -/
structure UnitStats where
  attack : ℤ
  defense : ℤ
  speed : ℤ
  cost : ℤ
deriving DecidableEq, Repr

/-- `const UNIT_STATS = { infantry: ..., archer: ..., cavalry: ... }`. -/
def UNIT_STATS : UnitType → UnitStats
  | .infantry => ⟨10, 15, 1, 50⟩
  | .archer => ⟨15, 5, 1, 75⟩
  | .cavalry => ⟨20, 10, 2, 150⟩

/-- The untrusted `message.unitType` string keyed into `UNIT_STATS`;
`none` models the `if (!stats) return;` guard. -/
def parseUnitType : String → Option UnitType
  | "infantry" => some .infantry
  | "archer" => some .archer
  | "cavalry" => some .cavalry
  | _ => none

/-- `sanitizePlayer`: strips the `ws` connection handle before serialization. -/
def sanitizePlayer (player : Player) : Player :=
  { player with ws := none }

/-- Outbound wire messages (the `type` discriminator becomes a constructor). -/
inductive OutMsg where
  | init (playerId : String) (player : Player) (players : List Player)
      (territories : List Territory)
  | playerJoined (player : Player)
  | playerLeft (playerId : String)
  | playerMoved (playerId : String) (position : Position)
  | tickMsg (players : List Player)
  | recruited (player : Player)
  | goldUpdate (gold : ℤ)
  | chatMsg (playerId name faction text : String)
  | battleResult (winner loser : String) (attackPower defensePower loot : ℤ)
      (role : String)
  | battleOccurred (attacker defender winner : String)
  | errMsg (message : String)

/-- The player records carried inside one outbound message. -/
def playersIn : OutMsg → List Player
  | .init _ player players _ => player :: players
  | .playerJoined player => [player]
  | .tickMsg players => players
  | .recruited player => [player]
  | _ => []

/-- `getArmySpeed`: 2 for an empty army, 2 with live cavalry, else 1. -/
def getArmySpeed (army : List Unit) : ℤ :=
  if army.length = 0 then 2
  else if army.any (fun u => u.type = UnitType.cavalry ∧ u.count > 0) then 2
  else 1

/-- `getArmyPower`: `reduce` of `(attack + defense) * count * level`. -/
def getArmyPower (army : List Unit) : ℤ :=
  army.foldl
    (fun total u =>
      total + ((UNIT_STATS u.type).attack + (UNIT_STATS u.type).defense)
        * u.count * u.level) 0

/-- `state.players.set(id, player)`: replace the entry with the key in place,
or append a new entry (JS `Map.set` insertion-order semantics). -/
def mapSet : List (String × Player) → String → Player → List (String × Player)
  | [], key, player => [(key, player)]
  | e :: rest, key, player =>
      if e.1 = key then (key, player) :: rest else e :: mapSet rest key player

/-- The `Player` literal built by `handleJoin`; `rx, ry` stand for the two
`Math.random()` draws of the spawn position, `wsh` for the connection. -/
noncomputable def newPlayer (st : GameState) (pid nm : String) (rx ry : ℝ)
    (wsh : ℕ) : Player :=
  let factionIndex := st.players.length % FACTIONS.length
  { id := pid
    name := if nm = "" then "Warrior_" ++ pid.take 4 else nm
    faction := FACTIONS.getD factionIndex ""
    position := ⟨20 + rx * 60, 20 + ry * 60⟩
    gold := 1000
    army := [⟨.infantry, 20, 1⟩, ⟨.archer, 10, 1⟩]
    color := FACTION_COLORS.getD factionIndex ""
    ws := some wsh }

/-- `handleJoin`: register the player, send `init` to the joiner and
broadcast `player_joined` to the others. -/
noncomputable def handleJoin (st : GameState) (pid nm : String) (rx ry : ℝ)
    (wsh : ℕ) : GameState × List OutMsg :=
  let player := newPlayer st pid nm rx ry wsh
  let st' := { st with players := mapSet st.players pid player }
  (st',
    [OutMsg.init pid (sanitizePlayer player)
        (st'.players.map (fun e => sanitizePlayer e.2)) st.territories,
      OutMsg.playerJoined (sanitizePlayer player)])

/-- One join request: session id, requested name, the two random draws of
the spawn position, and the connection handle. -/
structure JoinReq where
  pid : String
  nm : String
  rx : ℝ
  ry : ℝ
  wsh : ℕ

/-- The empty game state a fresh server starts from. -/
def emptyState : GameState :=
  { players := [], territories := [], tick := 0 }

/-- Run a sequence of joins, collecting the created players in order. -/
noncomputable def runJoins : GameState → List JoinReq → GameState × List Player
  | st, [] => (st, [])
  | st, r :: rest =>
      let p := newPlayer st r.pid r.nm r.rx r.ry r.wsh
      let st' := (handleJoin st r.pid r.nm r.rx r.ry r.wsh).1
      let done := runJoins st' rest
      (done.1, p :: done.2)

/-- The possibly speed-capped target of `handleMove`: when the requested
distance exceeds `maxSpeed * 5`, the message coordinates are rescaled
toward the current position (`message.x = position.x + dx * ratio`). -/
noncomputable def moveTarget (p : Player) (mx my : ℝ) : ℝ × ℝ :=
  let dx := mx - p.position.x
  let dy := my - p.position.y
  let distance := Real.sqrt (dx * dx + dy * dy)
  let maxSpeed : ℝ := (getArmySpeed p.army : ℝ)
  if maxSpeed * 5 < distance then
    let ratio := (maxSpeed * 5) / distance
    (p.position.x + dx * ratio, p.position.y + dy * ratio)
  else (mx, my)

/-- `Math.max(0, Math.min(MAP_SIZE, v))`. -/
noncomputable def clampCoord (v : ℝ) : ℝ :=
  max 0 (min MAP_SIZE v)

/-- `handleMove`: cap the requested displacement at `getArmySpeed * 5`,
then clamp each axis to `[0, MAP_SIZE]` and store the new position. -/
noncomputable def handleMove (p : Player) (mx my : ℝ) : Player :=
  { p with
      position :=
        ⟨clampCoord (moveTarget p mx my).1, clampCoord (moveTarget p mx my).2⟩ }

/-- `player.army.find(u => u.type === unitType)` followed by the merge
(`existing.count += count`) or the push of a fresh level-1 stack. -/
def addToStack : List Unit → UnitType → ℤ → List Unit
  | [], t, c => [⟨t, c, 1⟩]
  | u :: rest, t, c =>
      if u.type = t then { u with count := u.count + c } :: rest
      else u :: addToStack rest t c

/-- `handleRecruit`: drop unknown unit types, reject on insufficient gold,
otherwise deduct the cost, merge the stack and report `recruited`. -/
def handleRecruit (p : Player) (unitTypeStr : String) (count : ℤ) :
    Player × List OutMsg :=
  match parseUnitType unitTypeStr with
  | none => (p, [])
  | some unitType =>
      let cost := (UNIT_STATS unitType).cost * count
      if p.gold < cost then (p, [OutMsg.errMsg "Not enough gold"])
      else
        let p' := { p with gold := p.gold - cost
                           army := addToStack p.army unitType count }
        (p', [OutMsg.recruited (sanitizePlayer p')])

/-- Total unit count a player owns of one type (sums duplicate stacks). -/
def typeCount : List Unit → UnitType → ℤ
  | [], _ => 0
  | u :: rest, t => (if u.type = t then u.count else 0) + typeCount rest t

/-- `getArmyPower(army) * (0.8 + Math.random() * 0.4)` with the random
draw `r` passed in. -/
def powerRoll (army : List Unit) (r : ℚ) : ℚ :=
  (getArmyPower army : ℚ) * (0.8 + r * 0.4)

/-- The closeness ratio of `resolveBattle`:
`attackerWins ? defensePower / attackPower : attackPower / defensePower`. -/
def battleRatio (attacker defender : Player) (ra rb : ℚ) : ℚ :=
  if powerRoll defender.army rb < powerRoll attacker.army ra then
    powerRoll defender.army rb / powerRoll attacker.army ra
  else
    powerRoll attacker.army ra / powerRoll defender.army rb

/-- `unit.count = Math.floor(unit.count * (1 - lossRatio))` over an army. -/
def applyLoss (army : List Unit) (lossRatio : ℚ) : List Unit :=
  army.map (fun u => { u with count := Int.floor ((u.count : ℚ) * (1 - lossRatio)) })

/-- A battle outcome record as returned by `resolveBattle`. -/
structure BattleOutcome where
  winner : String
  loser : String
  attackPower : ℤ
  defensePower : ℤ
  loot : ℤ
deriving Repr

/-- `resolveBattle`: returns the mutated attacker, the mutated defender and
the outcome record; `ra, rb` are the two `Math.random()` draws. -/
def resolveBattle (attacker defender : Player) (ra rb : ℚ) :
    Player × Player × BattleOutcome :=
  let attackPower := powerRoll attacker.army ra
  let defensePower := powerRoll defender.army rb
  let attackerWins := defensePower < attackPower
  let ratio := battleRatio attacker defender ra rb
  let winnerLossRatio := ratio * 0.3
  let loserLossRatio := 0.5 + (1 - ratio) * 0.5
  let winner := if attackerWins then attacker else defender
  let loser := if attackerWins then defender else attacker
  let winnerArmy := (applyLoss winner.army winnerLossRatio).filter
    (fun u => u.count > 0)
  let loserArmy := (applyLoss loser.army loserLossRatio).filter
    (fun u => u.count > 0)
  let loot := Int.floor ((loser.gold : ℚ) * 0.3)
  let winner' := { winner with army := winnerArmy, gold := winner.gold + loot }
  let loser' := { loser with army := loserArmy, gold := loser.gold - loot }
  let outcome : BattleOutcome :=
    { winner := winner.name, loser := loser.name,
      attackPower := round attackPower, defensePower := round defensePower,
      loot := loot }
  if attackerWins then (winner', loser', outcome) else (loser', winner', outcome)

/-- The `tick % 10 === 0` snapshot broadcast of the game loop. -/
def tickSnapshot (st : GameState) : List OutMsg :=
  [OutMsg.tickMsg (st.players.map (fun e => sanitizePlayer e.2))]

/-- The map-bounds invariant on a position. -/
def inBounds (pos : Position) : Prop :=
  0 ≤ pos.x ∧ pos.x ≤ MAP_SIZE ∧ 0 ≤ pos.y ∧ pos.y ≤ MAP_SIZE

/-- A freshly joined player used as concrete test data (starter army,
starting gold, spawn inside the map). -/
noncomputable def testPlayer : Player :=
  { id := "sess1"
    name := "Aldric"
    faction := "Swadia"
    position := ⟨20, 20⟩
    gold := 1000
    army := [⟨.infantry, 20, 1⟩, ⟨.archer, 10, 1⟩]
    color := "#3b82f6"
    ws := some 1 }

/-- A placeholder player for `List.getD` lookups. -/
noncomputable def dummyPlayer : Player :=
  { id := ""
    name := ""
    faction := ""
    position := ⟨0, 0⟩
    gold := 0
    army := []
    color := ""
    ws := none }

/-- A one-player game state used as concrete test data. -/
noncomputable def testState : GameState :=
  { players := [("sess1", testPlayer)], territories := [], tick := 0 }

section Lemmas

lemma clampCoord_nonneg (v : ℝ) : 0 ≤ clampCoord v :=
  le_max_left 0 _

lemma clampCoord_le_map (v : ℝ) : clampCoord v ≤ MAP_SIZE := by
  unfold clampCoord
  exact max_le (by norm_num [MAP_SIZE]) (min_le_left _ _)

lemma floor_loot_nonneg (g : ℤ) (hg : 0 ≤ g) :
    0 ≤ Int.floor ((g : ℚ) * 0.3) := by
  apply Int.floor_nonneg.mpr
  positivity

lemma floor_loot_le (g : ℤ) (hg : 0 ≤ g) :
    Int.floor ((g : ℚ) * 0.3) ≤ g := by
  have hg' : (0 : ℚ) ≤ (g : ℚ) := by exact_mod_cast hg
  have h1 : (g : ℚ) * 0.3 ≤ (g : ℚ) := by nlinarith
  calc Int.floor ((g : ℚ) * 0.3) ≤ Int.floor ((g : ℚ)) := Int.floor_le_floor h1
    _ = g := Int.floor_intCast g

end Lemmas

/-- **C2.** For every move request, whatever the requested coordinates, the
resulting position of the player lies inside `[0, MAP_SIZE]` on both axes:
the move handler preserves the map-bounds invariant for all inputs. -/
theorem handleMove_stays_in_bounds (p : Player) (mx my : ℝ) :
    0 ≤ (handleMove p mx my).position.x ∧
      (handleMove p mx my).position.x ≤ MAP_SIZE ∧
      0 ≤ (handleMove p mx my).position.y ∧
      (handleMove p mx my).position.y ≤ MAP_SIZE := by
  refine ⟨?_, ?_, ?_, ?_⟩ <;>
    simp only [handleMove] <;>
    first
      | exact clampCoord_nonneg _
      | exact clampCoord_le_map _

/-- **C3.** Battle resolution conserves the two-player gold total: the loot
is exactly `floor(loserGold * 0.3)`, it moves from the loser to the winner,
and both resulting gold balances stay non-negative. -/
theorem resolveBattle_gold_conserved (a d : Player) (ra rb : ℚ)
    (ha : 0 ≤ a.gold) (hd : 0 ≤ d.gold) :
    (resolveBattle a d ra rb).1.gold + (resolveBattle a d ra rb).2.1.gold
        = a.gold + d.gold ∧
      (resolveBattle a d ra rb).2.2.loot =
        Int.floor
          (((if powerRoll d.army rb < powerRoll a.army ra then d.gold
              else a.gold) : ℚ) * 0.3) ∧
      0 ≤ (resolveBattle a d ra rb).1.gold ∧
      0 ≤ (resolveBattle a d ra rb).2.1.gold := by
  by_cases h : powerRoll d.army rb < powerRoll a.army ra
  · simp only [resolveBattle, if_pos h]
    refine ⟨by ring, trivial, ?_, ?_⟩
    · exact add_nonneg ha (floor_loot_nonneg d.gold hd)
    · exact sub_nonneg.mpr (floor_loot_le d.gold hd)
  · simp only [resolveBattle, if_neg h]
    refine ⟨by ring, trivial, ?_, ?_⟩
    · exact sub_nonneg.mpr (floor_loot_le a.gold ha)
    · exact add_nonneg hd (floor_loot_nonneg a.gold ha)

/-- **C3 witness.** The conservation theorem applied to a concrete battle. -/
theorem resolveBattle_gold_conserved_witness :
    (resolveBattle testPlayer testPlayer 1 0).1.gold +
          (resolveBattle testPlayer testPlayer 1 0).2.1.gold
        = testPlayer.gold + testPlayer.gold ∧
      (resolveBattle testPlayer testPlayer 1 0).2.2.loot =
        Int.floor
          (((if powerRoll testPlayer.army 0 < powerRoll testPlayer.army 1 then
              testPlayer.gold else testPlayer.gold) : ℚ) * 0.3) ∧
      0 ≤ (resolveBattle testPlayer testPlayer 1 0).1.gold ∧
      0 ≤ (resolveBattle testPlayer testPlayer 1 0).2.1.gold :=
  resolveBattle_gold_conserved testPlayer testPlayer 1 0
    (by simp [testPlayer]) (by simp [testPlayer])

section RatioLemmas

lemma powerRoll_nonneg (army : List Unit) (r : ℚ) (hp : 0 ≤ getArmyPower army)
    (hr : 0 ≤ r) : 0 ≤ powerRoll army r := by
  unfold powerRoll
  have hc : (0 : ℚ) ≤ (getArmyPower army : ℚ) := by exact_mod_cast hp
  nlinarith

lemma powerRoll_pos (army : List Unit) (r : ℚ) (hp : 0 < getArmyPower army)
    (hr : 0 ≤ r) : 0 < powerRoll army r := by
  unfold powerRoll
  have hc : (0 : ℚ) < (getArmyPower army : ℚ) := by exact_mod_cast hp
  nlinarith

/-- Under the data-model invariant (army powers non-negative) and the
precondition that at least one power is strictly positive, the closeness
ratio is the quotient of the smaller roll by a strictly positive larger
roll, and lies in `[0, 1]`. -/
lemma battleRatio_bounds (a d : Player) (ra rb : ℚ)
    (hra : 0 ≤ ra) (hrb : 0 ≤ rb)
    (hpa : 0 ≤ getArmyPower a.army) (hpd : 0 ≤ getArmyPower d.army)
    (hpos : 0 < getArmyPower a.army ∨ 0 < getArmyPower d.army) :
    0 ≤ battleRatio a d ra rb ∧ battleRatio a d ra rb ≤ 1 := by
  have hA : 0 ≤ powerRoll a.army ra := powerRoll_nonneg _ _ hpa hra
  have hD : 0 ≤ powerRoll d.army rb := powerRoll_nonneg _ _ hpd hrb
  unfold battleRatio
  by_cases h : powerRoll d.army rb < powerRoll a.army ra
  · have hApos : 0 < powerRoll a.army ra := lt_of_le_of_lt hD h
    rw [if_pos h]
    exact ⟨div_nonneg hD hA, (div_le_one hApos).mpr h.le⟩
  · have hle : powerRoll a.army ra ≤ powerRoll d.army rb := le_of_not_lt h
    have hDpos : 0 < powerRoll d.army rb := by
      rcases hpos with hp | hp
      · exact lt_of_lt_of_le (powerRoll_pos _ _ hp hra) hle
      · exact powerRoll_pos _ _ hp hrb
    rw [if_neg h]
    exact ⟨div_nonneg hA hD, (div_le_one hDpos).mpr hle⟩

end RatioLemmas

/-- **C4.** For every battle resolution (random draws in `[0, 1)`, army
powers non-negative, at least one strictly positive), the winner's loss
fraction `ratio * 0.3` never exceeds the loser's loss fraction
`0.5 + (1 - ratio) * 0.5`. -/
theorem resolveBattle_winner_loses_less (a d : Player) (ra rb : ℚ)
    (hra : 0 ≤ ra) (hra1 : ra < 1) (hrb : 0 ≤ rb) (hrb1 : rb < 1)
    (hpa : 0 ≤ getArmyPower a.army) (hpd : 0 ≤ getArmyPower d.army)
    (hpos : 0 < getArmyPower a.army ∨ 0 < getArmyPower d.army) :
    battleRatio a d ra rb * 0.3 ≤ 0.5 + (1 - battleRatio a d ra rb) * 0.5 := by
  obtain ⟨h0, h1⟩ := battleRatio_bounds a d ra rb hra hrb hpa hpd hpos
  nlinarith

/-- **C4 witness.** The loss-fraction inequality at a concrete battle. -/
theorem resolveBattle_winner_loses_less_witness :
    battleRatio testPlayer testPlayer (1/2) 0 * 0.3 ≤
      0.5 + (1 - battleRatio testPlayer testPlayer (1/2) 0) * 0.5 :=
  resolveBattle_winner_loses_less testPlayer testPlayer (1/2) 0
    (by norm_num) (by norm_num) (by norm_num) (by norm_num)
    (by simp [testPlayer, getArmyPower, UNIT_STATS])
    (by simp [testPlayer, getArmyPower, UNIT_STATS])
    (Or.inl (by simp [testPlayer, getArmyPower, UNIT_STATS]))

/-- **C10.** The closeness-ratio division of `resolveBattle` is unguarded:
with random draws in `[0, 1)` and non-negative army powers, (i) if at least
one army power is strictly positive the divisor of the ratio is strictly
positive and the ratio lies in `[0, 1]`; (ii) if both army powers are zero
the ratio is the quotient of a zero numerator by a zero divisor. -/
theorem battleRatio_division_guarded_by_positivity (a d : Player) (ra rb : ℚ)
    (hra : 0 ≤ ra) (hra1 : ra < 1) (hrb : 0 ≤ rb) (hrb1 : rb < 1)
    (hpa : 0 ≤ getArmyPower a.army) (hpd : 0 ≤ getArmyPower d.army) :
    ((0 < getArmyPower a.army ∨ 0 < getArmyPower d.army) →
      0 < (if powerRoll d.army rb < powerRoll a.army ra then
            powerRoll a.army ra else powerRoll d.army rb) ∧
      0 ≤ battleRatio a d ra rb ∧ battleRatio a d ra rb ≤ 1) ∧
    (getArmyPower a.army = 0 ∧ getArmyPower d.army = 0 →
      powerRoll a.army ra = 0 ∧ powerRoll d.army rb = 0) := by
  constructor
  · intro hpos
    have hA : 0 ≤ powerRoll a.army ra := powerRoll_nonneg _ _ hpa hra
    have hD : 0 ≤ powerRoll d.army rb := powerRoll_nonneg _ _ hpd hrb
    refine ⟨?_, battleRatio_bounds a d ra rb hra hrb hpa hpd hpos⟩
    by_cases h : powerRoll d.army rb < powerRoll a.army ra
    · rw [if_pos h]
      exact lt_of_le_of_lt hD h
    · rw [if_neg h]
      rcases hpos with hp | hp
      · exact lt_of_lt_of_le (powerRoll_pos _ _ hp hra) (le_of_not_lt h)
      · exact powerRoll_pos _ _ hp hrb
  · rintro ⟨hza, hzd⟩
    constructor <;> simp [powerRoll, hza, hzd]

/-- **C10 witness.** The division guard at a concrete battle: the starter
army against an empty army. -/
theorem battleRatio_division_guarded_witness :
    ((0 < getArmyPower testPlayer.army ∨ 0 < getArmyPower dummyPlayer.army) →
      0 < (if powerRoll dummyPlayer.army 0 < powerRoll testPlayer.army (1/2)
            then powerRoll testPlayer.army (1/2)
            else powerRoll dummyPlayer.army 0) ∧
      0 ≤ battleRatio testPlayer dummyPlayer (1/2) 0 ∧
      battleRatio testPlayer dummyPlayer (1/2) 0 ≤ 1) ∧
    (getArmyPower testPlayer.army = 0 ∧ getArmyPower dummyPlayer.army = 0 →
      powerRoll testPlayer.army (1/2) = 0 ∧ powerRoll dummyPlayer.army 0 = 0) :=
  battleRatio_division_guarded_by_positivity testPlayer dummyPlayer (1/2) 0
    (by norm_num) (by norm_num) (by norm_num) (by norm_num)
    (by simp [testPlayer, getArmyPower, UNIT_STATS])
    (by simp [dummyPlayer, getArmyPower])

section RecruitLemmas

lemma typeCount_addToStack (l : List Unit) (t : UnitType) (c : ℤ) :
    typeCount (addToStack l t c) t = typeCount l t + c := by
  induction l with
  | nil => simp [addToStack, typeCount]
  | cons u rest ih =>
      by_cases h : u.type = t
      · simp only [addToStack, if_pos h, typeCount]
        ring
      · simp only [addToStack, if_neg h, typeCount]
        rw [ih]
        ring

lemma addToStack_of_absent (l : List Unit) (t : UnitType) (c : ℤ)
    (h : ∀ u ∈ l, u.type ≠ t) : addToStack l t c = l ++ [⟨t, c, 1⟩] := by
  induction l with
  | nil => simp [addToStack]
  | cons u rest ih =>
      have hu : u.type ≠ t := h u (List.mem_cons_self u rest)
      simp only [addToStack, if_neg hu, List.cons_append]
      rw [ih (fun v hv => h v (List.mem_cons_of_mem u hv))]

lemma addToStack_counts_pos (l : List Unit) (t : UnitType) (c : ℤ)
    (hc : 0 < c) (h : ∀ u ∈ l, 0 < u.count) :
    ∀ u ∈ addToStack l t c, 0 < u.count := by
  induction l with
  | nil =>
      intro u hu
      simp only [addToStack, List.mem_singleton] at hu
      rw [hu]
      exact hc
  | cons v rest ih =>
      intro u hu
      by_cases hv : v.type = t
      · simp only [addToStack, if_pos hv, List.mem_cons] at hu
        rcases hu with hu | hu
        · rw [hu]
          have : 0 < v.count := h v (List.mem_cons_self v rest)
          simp only []
          omega
        · exact h u (List.mem_cons_of_mem v hu)
      · simp only [addToStack, if_neg hv, List.mem_cons] at hu
        rcases hu with hu | hu
        · rw [hu]
          exact h v (List.mem_cons_self v rest)
        · exact ih (fun w hw => h w (List.mem_cons_of_mem v hw)) u hu

end RecruitLemmas

/-- **C5.** A recruit request with a known unit type is rejected — error
response, player unchanged — exactly when `cost * count` exceeds the
player's gold; otherwise gold drops by exactly `cost * count`, the total
count of the requested type grows by exactly `count`, a fresh level-1 stack
is appended when no stack of that type existed, and the updated player is
reported back. -/
theorem handleRecruit_spec (p : Player) (s : String) (ut : UnitType)
    (count : ℤ) (hparse : parseUnitType s = some ut) :
    (p.gold < (UNIT_STATS ut).cost * count →
      handleRecruit p s count = (p, [OutMsg.errMsg "Not enough gold"])) ∧
    (¬ p.gold < (UNIT_STATS ut).cost * count →
      (handleRecruit p s count).1.gold
          = p.gold - (UNIT_STATS ut).cost * count ∧
        typeCount (handleRecruit p s count).1.army ut
          = typeCount p.army ut + count ∧
        ((∀ u ∈ p.army, u.type ≠ ut) →
          (handleRecruit p s count).1.army = p.army ++ [⟨ut, count, 1⟩]) ∧
        (handleRecruit p s count).2
          = [OutMsg.recruited (sanitizePlayer (handleRecruit p s count).1)]) := by
  constructor
  · intro h
    simp only [handleRecruit, hparse, if_pos h]
  · intro h
    simp only [handleRecruit, hparse, if_neg h]
    refine ⟨by trivial, typeCount_addToStack p.army ut count,
      fun habs => ?_, by trivial⟩
    simp [addToStack_of_absent p.army ut count habs]

/-- **C5 witness.** Recruiting 5 infantry with ample gold. -/
theorem handleRecruit_spec_witness :
    (testPlayer.gold < (UNIT_STATS UnitType.infantry).cost * 5 →
      handleRecruit testPlayer "infantry" 5
        = (testPlayer, [OutMsg.errMsg "Not enough gold"])) ∧
    (¬ testPlayer.gold < (UNIT_STATS UnitType.infantry).cost * 5 →
      (handleRecruit testPlayer "infantry" 5).1.gold
          = testPlayer.gold - (UNIT_STATS UnitType.infantry).cost * 5 ∧
        typeCount (handleRecruit testPlayer "infantry" 5).1.army
            UnitType.infantry
          = typeCount testPlayer.army UnitType.infantry + 5 ∧
        ((∀ u ∈ testPlayer.army, u.type ≠ UnitType.infantry) →
          (handleRecruit testPlayer "infantry" 5).1.army
            = testPlayer.army ++ [⟨UnitType.infantry, 5, 1⟩]) ∧
        (handleRecruit testPlayer "infantry" 5).2
          = [OutMsg.recruited
              (sanitizePlayer (handleRecruit testPlayer "infantry" 5).1)]) :=
  handleRecruit_spec testPlayer "infantry" UnitType.infantry 5 rfl

/-- **C7 counterexample.** A recruit request for the unknown type
`"knight"` is dropped with no outbound message at all — in particular no
unicast `error` — refuting the claim that an error message is sent. -/
theorem handleRecruit_unknown_sends_nothing :
    handleRecruit testPlayer "knight" 5 = (testPlayer, []) := rfl

/-- **C7 (amended).** A recruit request by a registered player whose unit
type is unknown is silently dropped: no state is mutated and no message —
error or otherwise — is sent. -/
theorem handleRecruit_unknown_silent (p : Player) (s : String) (c : ℤ)
    (h : parseUnitType s = none) : handleRecruit p s c = (p, []) := by
  simp [handleRecruit, h]

/-- **C7 witness.** The silent drop at a concrete unknown unit type. -/
theorem handleRecruit_unknown_silent_witness :
    handleRecruit testPlayer "wizard" 7 = (testPlayer, []) :=
  handleRecruit_unknown_silent testPlayer "wizard" 7 rfl

/-- **C8 counterexample.** Recruiting zero cavalry appends a zero-count
stack and `handleRecruit` never prunes, refuting the claim that zero-count
stacks are pruned after any army mutation. -/
theorem handleRecruit_zero_count_stack :
    (⟨UnitType.cavalry, 0, 1⟩ : Unit)
      ∈ (handleRecruit testPlayer "cavalry" 0).1.army := by decide

/-- **C8 (amended).** Battle resolution prunes: every stack remaining in
either army after `resolveBattle` has strictly positive count. Recruitment
does not prune; it preserves all-positive stack counts only when the
requested count is itself positive. -/
theorem stacks_positive_after_mutation :
    (∀ (a d : Player) (ra rb : ℚ) (u : Unit),
      u ∈ (resolveBattle a d ra rb).1.army → 0 < u.count) ∧
    (∀ (a d : Player) (ra rb : ℚ) (u : Unit),
      u ∈ (resolveBattle a d ra rb).2.1.army → 0 < u.count) ∧
    (∀ (p : Player) (s : String) (c : ℤ),
      0 < c → (∀ u ∈ p.army, 0 < u.count) →
      ∀ u ∈ (handleRecruit p s c).1.army, 0 < u.count) := by
  have hbattle : ∀ (a d : Player) (ra rb : ℚ) (u : Unit),
      (u ∈ (resolveBattle a d ra rb).1.army → 0 < u.count) ∧
      (u ∈ (resolveBattle a d ra rb).2.1.army → 0 < u.count) := by
    intro a d ra rb u
    by_cases h : powerRoll d.army rb < powerRoll a.army ra <;>
      [simp only [resolveBattle, if_pos h]; simp only [resolveBattle, if_neg h]] <;>
      constructor <;>
      · intro hu
        simp only [List.mem_filter, decide_eq_true_eq] at hu
        exact hu.2
  refine ⟨fun a d ra rb u => (hbattle a d ra rb u).1,
    fun a d ra rb u => (hbattle a d ra rb u).2, ?_⟩
  intro p s c hc harmy u hu
  cases hps : parseUnitType s with
  | none =>
      simp only [handleRecruit, hps] at hu
      exact harmy u hu
  | some ut =>
      simp only [handleRecruit, hps] at hu
      by_cases hgold : p.gold < (UNIT_STATS ut).cost * c
      · rw [if_pos hgold] at hu
        exact harmy u hu
      · rw [if_neg hgold] at hu
        exact addToStack_counts_pos p.army ut c hc harmy u hu

/-- **C8 witness.** Positivity after a concrete recruit of 5 cavalry. -/
theorem stacks_positive_after_mutation_witness :
    0 < (Unit.mk UnitType.cavalry 5 1).count :=
  stacks_positive_after_mutation.2.2 testPlayer "cavalry" 5 (by norm_num)
    (by decide) ⟨UnitType.cavalry, 5, 1⟩ (by decide)

section JoinLemmas

lemma mapSet_fresh (l : List (String × Player)) (k : String) (v : Player)
    (h : ∀ e ∈ l, e.1 ≠ k) : mapSet l k v = l ++ [(k, v)] := by
  induction l with
  | nil => simp [mapSet]
  | cons e rest ih =>
      have he : e.1 ≠ k := h e (List.mem_cons_self e rest)
      simp only [mapSet, if_neg he, List.cons_append]
      rw [ih (fun f hf => h f (List.mem_cons_of_mem e hf))]

lemma mem_mapSet_self (l : List (String × Player)) (k : String) (v : Player) :
    (k, v) ∈ mapSet l k v := by
  induction l with
  | nil => simp [mapSet]
  | cons e rest ih =>
      by_cases he : e.1 = k
      · simp [mapSet, he]
      · simp only [mapSet, if_neg he, List.mem_cons]
        exact Or.inr ih

lemma handleJoin_players (st : GameState) (pid nm : String) (rx ry : ℝ)
    (wsh : ℕ) :
    (handleJoin st pid nm rx ry wsh).1.players
      = mapSet st.players pid (newPlayer st pid nm rx ry wsh) := rfl

lemma newPlayer_faction (st : GameState) (pid nm : String) (rx ry : ℝ)
    (wsh : ℕ) :
    (newPlayer st pid nm rx ry wsh).faction
      = FACTIONS.getD (st.players.length % FACTIONS.length) "" := rfl

lemma runJoins_faction (reqs : List JoinReq) :
    ∀ (st : GameState),
      (∀ r ∈ reqs, ∀ e ∈ st.players, e.1 ≠ r.pid) →
      (reqs.map JoinReq.pid).Nodup →
      ∀ n, n < reqs.length →
      ((runJoins st reqs).2.getD n dummyPlayer).faction
        = FACTIONS.getD ((st.players.length + n) % FACTIONS.length) "" := by
  induction reqs with
  | nil =>
      intro st _ _ n hn
      simp at hn
  | cons r rest ih =>
      intro st hfresh hnodup n hn
      have hfr : ∀ e ∈ st.players, e.1 ≠ r.pid :=
        hfresh r (List.mem_cons_self r rest)
      have hset : (handleJoin st r.pid r.nm r.rx r.ry r.wsh).1.players
          = st.players ++ [(r.pid, newPlayer st r.pid r.nm r.rx r.ry r.wsh)] := by
        rw [handleJoin_players]
        exact mapSet_fresh _ _ _ hfr
      have hlen : (handleJoin st r.pid r.nm r.rx r.ry r.wsh).1.players.length
          = st.players.length + 1 := by
        rw [hset]
        simp
      rw [List.map_cons, List.nodup_cons] at hnodup
      cases n with
      | zero => simp [runJoins, newPlayer]
      | succ m =>
          have hfresh' : ∀ r' ∈ rest,
              ∀ e ∈ (handleJoin st r.pid r.nm r.rx r.ry r.wsh).1.players,
                e.1 ≠ r'.pid := by
            intro r' hr' e he
            rw [hset, List.mem_append] at he
            rcases he with he | he
            · exact hfresh r' (List.mem_cons_of_mem r hr') e he
            · rw [List.mem_singleton] at he
              rw [he]
              show r.pid ≠ r'.pid
              intro hcontra
              exact hnodup.1 (hcontra ▸ List.mem_map_of_mem JoinReq.pid hr')
          have hm : m < rest.length := by
            simpa using Nat.lt_of_succ_lt_succ hn
          have hrec := ih (handleJoin st r.pid r.nm r.rx r.ry r.wsh).1
            hfresh' hnodup.2 m hm
          simp only [runJoins, List.getD_cons_succ]
          rw [hrec, hlen, Nat.add_assoc, Nat.add_comm 1 m]

end JoinLemmas

/-- **C9.** (i) Starting from an empty server, the `n`-th join (0-indexed)
of a sequence of joins with distinct session ids is assigned the faction
`FACTIONS[n % 6]`; (ii) a join with an empty name is assigned the name
`Warrior_` followed by the first 4 characters of the session id. -/
theorem join_round_robin_and_default_name :
    (∀ (reqs : List JoinReq), (reqs.map JoinReq.pid).Nodup →
      ∀ n, n < reqs.length →
      ((runJoins emptyState reqs).2.getD n dummyPlayer).faction
        = FACTIONS.getD (n % FACTIONS.length) "") ∧
    (∀ (st : GameState) (pid : String) (rx ry : ℝ) (wsh : ℕ),
      (newPlayer st pid "" rx ry wsh).name = "Warrior_" ++ pid.take 4) := by
  constructor
  · intro reqs hnodup n hn
    have h := runJoins_faction reqs emptyState
      (by intro r _ e he; simp [emptyState] at he) hnodup n hn
    simpa [emptyState] using h
  · intro st pid rx ry wsh
    simp [newPlayer]

/-- **C9 witness.** Seven concrete joins: the seventh (index 6) wraps
around to `FACTIONS[0]`. -/
theorem join_round_robin_witness :
    ((runJoins emptyState
        [⟨"s1", "", 0, 0, 1⟩, ⟨"s2", "", 0, 0, 2⟩, ⟨"s3", "", 0, 0, 3⟩,
          ⟨"s4", "", 0, 0, 4⟩, ⟨"s5", "", 0, 0, 5⟩, ⟨"s6", "", 0, 0, 6⟩,
          ⟨"s7", "", 0, 0, 7⟩]).2.getD 6 dummyPlayer).faction
      = FACTIONS.getD (6 % FACTIONS.length) "" :=
  join_round_robin_and_default_name.1
    [⟨"s1", "", 0, 0, 1⟩, ⟨"s2", "", 0, 0, 2⟩, ⟨"s3", "", 0, 0, 3⟩,
      ⟨"s4", "", 0, 0, 4⟩, ⟨"s5", "", 0, 0, 5⟩, ⟨"s6", "", 0, 0, 6⟩,
      ⟨"s7", "", 0, 0, 7⟩]
    (by decide) 6 (by decide)

/-- **C6.** Every player record carried by an outbound message of the join
handler (`init`, `player_joined`), the recruit handler (`recruited`) or the
tick-loop snapshot (`tick`) is the sanitized form of a player state: its
connection handle is `none`, so no message ever carries a handle. -/
theorem outbound_messages_sanitized :
    (∀ (st : GameState) (pid nm : String) (rx ry : ℝ) (wsh : ℕ),
      ∀ m ∈ (handleJoin st pid nm rx ry wsh).2, ∀ q ∈ playersIn m,
        q.ws = none ∧
          ∃ e ∈ (handleJoin st pid nm rx ry wsh).1.players,
            q = sanitizePlayer e.2) ∧
    (∀ (p : Player) (s : String) (c : ℤ),
      ∀ m ∈ (handleRecruit p s c).2, ∀ q ∈ playersIn m,
        q.ws = none ∧ q = sanitizePlayer (handleRecruit p s c).1) ∧
    (∀ (st : GameState), ∀ m ∈ tickSnapshot st, ∀ q ∈ playersIn m,
        q.ws = none ∧ ∃ e ∈ st.players, q = sanitizePlayer e.2) := by
  refine ⟨?_, ?_, ?_⟩
  · intro st pid nm rx ry wsh m hm q hq
    simp only [handleJoin, List.mem_cons, List.mem_singleton,
      List.not_mem_nil, or_false] at hm
    rcases hm with hm | hm <;> rw [hm] at hq <;>
      simp only [playersIn, List.mem_cons, List.mem_singleton,
        List.not_mem_nil, or_false] at hq
    · rcases hq with hq | hq
      · refine ⟨by rw [hq]; rfl, ⟨(pid, newPlayer st pid nm rx ry wsh), ?_, hq⟩⟩
        rw [handleJoin_players]
        exact mem_mapSet_self _ _ _
      · rw [List.mem_map] at hq
        obtain ⟨e, he, hqe⟩ := hq
        exact ⟨by rw [← hqe]; rfl, ⟨e, he, hqe.symm⟩⟩
    · refine ⟨by rw [hq]; rfl, ⟨(pid, newPlayer st pid nm rx ry wsh), ?_, hq⟩⟩
      rw [handleJoin_players]
      exact mem_mapSet_self _ _ _
  · intro p s c m hm q hq
    cases hps : parseUnitType s with
    | none => simp [handleRecruit, hps] at hm
    | some ut =>
        by_cases hg : p.gold < (UNIT_STATS ut).cost * c
        · simp only [handleRecruit, hps, if_pos hg, List.mem_singleton] at hm
          rw [hm] at hq
          simp [playersIn] at hq
        · simp only [handleRecruit, hps, if_neg hg, List.mem_singleton] at hm
          rw [hm] at hq
          simp only [playersIn, List.mem_singleton] at hq
          rw [hq]
          exact ⟨rfl, by simp [handleRecruit, hps, if_neg hg]⟩
  · intro st m hm q hq
    simp only [tickSnapshot, List.mem_singleton] at hm
    rw [hm] at hq
    simp only [playersIn, List.mem_map] at hq
    obtain ⟨e, he, hqe⟩ := hq
    exact ⟨by rw [← hqe]; rfl, ⟨e, he, hqe.symm⟩⟩

/-- **C6 witness.** The tick snapshot of a one-player state carries only
the sanitized record of that player. -/
theorem outbound_messages_sanitized_witness :
    (sanitizePlayer testPlayer).ws = none ∧
      ∃ e ∈ testState.players, sanitizePlayer testPlayer = sanitizePlayer e.2 :=
  outbound_messages_sanitized.2.2 testState
    (OutMsg.tickMsg [sanitizePlayer testPlayer])
    (by simp [tickSnapshot, testState])
    (sanitizePlayer testPlayer)
    (by simp [playersIn])

section MoveLemmas

lemma one_le_getArmySpeed (army : List Unit) : 1 ≤ getArmySpeed army := by
  unfold getArmySpeed
  split_ifs <;> norm_num

lemma budget_pos (army : List Unit) : (0 : ℝ) < (getArmySpeed army : ℝ) * 5 := by
  have h := one_le_getArmySpeed army
  have h' : (1 : ℝ) ≤ (getArmySpeed army : ℝ) := by exact_mod_cast h
  linarith

/-- Clamping to `[0, MAP_SIZE]` never increases the distance to a point
that already lies in `[0, MAP_SIZE]`. -/
lemma abs_clampCoord_sub_le (t c : ℝ) (h0 : 0 ≤ c) (h1 : c ≤ MAP_SIZE) :
    |clampCoord t - c| ≤ |t - c| := by
  have hclamp_le : clampCoord t ≤ max c t := by
    unfold clampCoord
    calc max 0 (min MAP_SIZE t) ≤ max c (min MAP_SIZE t) :=
          max_le_max h0 le_rfl
      _ ≤ max c t := max_le_max le_rfl (min_le_right _ _)
  have hle_clamp : min c t ≤ clampCoord t := by
    unfold clampCoord
    calc min c t ≤ min MAP_SIZE t := min_le_min h1 le_rfl
      _ ≤ max 0 (min MAP_SIZE t) := le_max_right _ _
  rw [abs_sub_le_iff]
  constructor
  · have h2 : max c t ≤ c + |t - c| :=
      max_le (by linarith [abs_nonneg (t - c)]) (by linarith [le_abs_self (t - c)])
    linarith
  · have h3 : c - |t - c| ≤ min c t :=
      le_min (by linarith [abs_nonneg (t - c)]) (by linarith [neg_abs_le (t - c)])
    linarith

lemma sqrt_sum_sq_mono (a a' b b' : ℝ) (ha : |a'| ≤ |a|) (hb : |b'| ≤ |b|) :
    Real.sqrt (a' ^ 2 + b' ^ 2) ≤ Real.sqrt (a ^ 2 + b ^ 2) := by
  apply Real.sqrt_le_sqrt
  have h1 : a' ^ 2 ≤ a ^ 2 := by
    rw [← sq_abs a', ← sq_abs a]
    exact pow_le_pow_left₀ (abs_nonneg a') ha 2
  have h2 : b' ^ 2 ≤ b ^ 2 := by
    rw [← sq_abs b', ← sq_abs b]
    exact pow_le_pow_left₀ (abs_nonneg b') hb 2
  linarith

/-- The displacement of the rescaled target is exactly the budget `B`. -/
lemma scaled_dist (px py dx dy B : ℝ) (hB : 0 < B)
    (h : B < Real.sqrt (dx * dx + dy * dy)) :
    Real.sqrt ((px + dx * (B / Real.sqrt (dx * dx + dy * dy)) - px) ^ 2 +
        (py + dy * (B / Real.sqrt (dx * dx + dy * dy)) - py) ^ 2) = B := by
  have hs : 0 < Real.sqrt (dx * dx + dy * dy) := lt_trans hB h
  have hr : 0 ≤ B / Real.sqrt (dx * dx + dy * dy) := le_of_lt (div_pos hB hs)
  have hsimp : (px + dx * (B / Real.sqrt (dx * dx + dy * dy)) - px) ^ 2 +
      (py + dy * (B / Real.sqrt (dx * dx + dy * dy)) - py) ^ 2
      = (B / Real.sqrt (dx * dx + dy * dy)) ^ 2 * (dx * dx + dy * dy) := by
    ring
  rw [hsimp, Real.sqrt_mul (sq_nonneg _), Real.sqrt_sq hr]
  exact div_mul_cancel₀ B (ne_of_gt hs)

end MoveLemmas

/-- **C1.** For every move request from a position inside the map: when the
requested Euclidean displacement exceeds the budget `armySpeed * 5`, the
target is rescaled toward the current position so that the pre-clamp
displacement equals the budget exactly; and in every case the final
displacement after the per-axis clamp never exceeds the budget. -/
theorem handleMove_caps_displacement (p : Player) (mx my : ℝ)
    (h : inBounds p.position) :
    ((getArmySpeed p.army : ℝ) * 5 <
        Real.sqrt ((mx - p.position.x) ^ 2 + (my - p.position.y) ^ 2) →
      Real.sqrt (((moveTarget p mx my).1 - p.position.x) ^ 2 +
          ((moveTarget p mx my).2 - p.position.y) ^ 2)
        = (getArmySpeed p.army : ℝ) * 5) ∧
    Real.sqrt (((handleMove p mx my).position.x - p.position.x) ^ 2 +
        ((handleMove p mx my).position.y - p.position.y) ^ 2)
      ≤ (getArmySpeed p.army : ℝ) * 5 := by
  obtain ⟨hx0, hx1, hy0, hy1⟩ := h
  have hsqarg : (mx - p.position.x) * (mx - p.position.x) +
      (my - p.position.y) * (my - p.position.y)
      = (mx - p.position.x) ^ 2 + (my - p.position.y) ^ 2 := by ring
  have hpart1 : (getArmySpeed p.army : ℝ) * 5 <
        Real.sqrt ((mx - p.position.x) ^ 2 + (my - p.position.y) ^ 2) →
      Real.sqrt (((moveTarget p mx my).1 - p.position.x) ^ 2 +
          ((moveTarget p mx my).2 - p.position.y) ^ 2)
        = (getArmySpeed p.army : ℝ) * 5 := by
    intro hover
    have hcond : (getArmySpeed p.army : ℝ) * 5 <
        Real.sqrt ((mx - p.position.x) * (mx - p.position.x) +
          (my - p.position.y) * (my - p.position.y)) := by
      rw [hsqarg]
      exact hover
    simp only [moveTarget, if_pos hcond]
    exact scaled_dist p.position.x p.position.y _ _ _ (budget_pos p.army) hcond
  refine ⟨hpart1, ?_⟩
  have hstep : Real.sqrt (((moveTarget p mx my).1 - p.position.x) ^ 2 +
      ((moveTarget p mx my).2 - p.position.y) ^ 2)
      ≤ (getArmySpeed p.army : ℝ) * 5 := by
    by_cases hover : (getArmySpeed p.army : ℝ) * 5 <
        Real.sqrt ((mx - p.position.x) * (mx - p.position.x) +
          (my - p.position.y) * (my - p.position.y))
    · have hover' : (getArmySpeed p.army : ℝ) * 5 <
          Real.sqrt ((mx - p.position.x) ^ 2 + (my - p.position.y) ^ 2) := by
        rw [← hsqarg]
        exact hover
      exact le_of_eq (hpart1 hover')
    · simp only [moveTarget, if_neg hover]
      push_neg at hover
      rw [hsqarg] at hover
      exact hover
  have hxx := abs_clampCoord_sub_le (moveTarget p mx my).1 p.position.x hx0 hx1
  have hyy := abs_clampCoord_sub_le (moveTarget p mx my).2 p.position.y hy0 hy1
  have hmono := sqrt_sum_sq_mono ((moveTarget p mx my).1 - p.position.x)
    (clampCoord (moveTarget p mx my).1 - p.position.x)
    ((moveTarget p mx my).2 - p.position.y)
    (clampCoord (moveTarget p mx my).2 - p.position.y) hxx hyy
  have hfx : (handleMove p mx my).position.x
      = clampCoord (moveTarget p mx my).1 := rfl
  have hfy : (handleMove p mx my).position.y
      = clampCoord (moveTarget p mx my).2 := rfl
  rw [hfx, hfy]
  exact le_trans hmono hstep

/-- **C1 witness.** A concrete over-budget move request from `(20, 20)`
to `(90, 20)` by a cavalry-free starter army. -/
theorem handleMove_caps_displacement_witness :
    ((getArmySpeed testPlayer.army : ℝ) * 5 <
        Real.sqrt ((90 - testPlayer.position.x) ^ 2 +
          (20 - testPlayer.position.y) ^ 2) →
      Real.sqrt (((moveTarget testPlayer 90 20).1 - testPlayer.position.x) ^ 2 +
          ((moveTarget testPlayer 90 20).2 - testPlayer.position.y) ^ 2)
        = (getArmySpeed testPlayer.army : ℝ) * 5) ∧
    Real.sqrt
        (((handleMove testPlayer 90 20).position.x - testPlayer.position.x) ^ 2 +
          ((handleMove testPlayer 90 20).position.y - testPlayer.position.y) ^ 2)
      ≤ (getArmySpeed testPlayer.army : ℝ) * 5 :=
  handleMove_caps_displacement testPlayer 90 20
    (by norm_num [inBounds, testPlayer, MAP_SIZE])

end Warband
